import Mathlib

/-!
Verification of the FSD keymap module (src/blue/fsd.c).

The C module implements `FsdUnsignedIntegerKeyMap`, a read-only binary-search
table over a byte buffer laid out as a 4-byte little-endian count followed by
12-byte records (key, value1, value2), together with a five-mode iterator and
two 32-bit unpacking helpers.

The embedding below models byte buffers as `List Nat` (each entry a byte,
normalized modulo 256 at every read, as a C `char` array holds 8-bit values).
Out-of-bounds memory accesses, which are undefined behavior in the C code, are
made explicit: every raw read is guarded and a failed guard surfaces as a
distinguished `oobRead` outcome.  Python-level results are modeled by `PyOut`:
a successful object, iterator exhaustion (`NULL` return with no exception
set), or a raised exception.  C `int` fields are modeled as `Int` (the claims
never exercise values outside the 32-bit range in a way that wraps).
-/

/-- Reinterpret a nonnegative value below 2^32 as a signed 32-bit integer
(two's complement), as happens when a `uint32_t` expression is converted to a
C `int`. -/
def toInt32 (n : Nat) : Int :=
  if n < 2147483648 then (n : Int) else (n : Int) - 4294967296

/-- Guarded single-byte read: `buf[i]` when `0 <= i < length`, reduced modulo
256 because the C buffer holds bytes.  `none` models an out-of-bounds access. -/
def readU8 (buf : List Nat) (i : Int) : Option Nat :=
  if 0 ≤ i ∧ i < (buf.length : Int) then some (buf.getD i.toNat 0 % 256) else none

/-- Guarded little-endian 32-bit unsigned read, `*(uint32_t *)&buf[i]` on a
little-endian machine. -/
def readUInt32 (buf : List Nat) (i : Int) : Option Nat :=
  match readU8 buf i, readU8 buf (i + 1), readU8 buf (i + 2), readU8 buf (i + 3) with
  | some b0, some b1, some b2, some b3 =>
      some (b0 + 256 * b1 + 65536 * b2 + 16777216 * b3)
  | _, _, _, _ => none

/-- Guarded little-endian 32-bit signed read, `*(int32_t *)&buf[i]`. -/
def readInt32 (buf : List Nat) (i : Int) : Option Int :=
  (readUInt32 buf i).map toInt32

/-- One 12-byte record of the keymap region (`keymap_entry` in fsd.h, whose
layout is fixed by its use in fsd.c: key at +0, value1 at +4, value2 at +8,
each an unsigned 32-bit little-endian word). -/
structure keymap_entry where
  key : Nat
  value1 : Nat
  value2 : Nat
deriving DecidableEq

/-- The keymap object (`PyKeyMapObject`).  `km_data` is the borrowed byte
region starting right after the 4-byte count (the C code keeps a pointer into
the buffer; the model keeps the suffix of the byte list, which has the same
reads in bounds).  `km_length` is the record count read from the prefix (a C
`int`, possibly negative, stored as read).  The `km_ref` field of the C struct
only manages reference counting and has no observable effect on the modeled
operations, so it is omitted. -/
structure PyKeyMapObject where
  km_data : List Nat
  km_length : Int
deriving DecidableEq

/-- The iterator object (`PyKeyMapIteratorObject`).  `kmi_index` starts at 0:
`PyType_GenericAlloc` zero-initializes the allocation and `_iter` sets only
`kmi_keymap` and `kmi_mode`. -/
structure PyKeyMapIteratorObject where
  kmi_keymap : PyKeyMapObject
  kmi_mode : Int
  kmi_index : Int
deriving DecidableEq

/-- Python values produced by the module: integers (`PyLong_FromUnsignedLong`,
`PyInt_FromLong`), tuples from `Py_BuildValue`, and `Py_None`. -/
inductive PyVal where
  | int (z : Int)
  | pair (a b : PyVal)
  | none
deriving DecidableEq

/-- Exceptions raised by the module, keyed by their raise sites in fsd.c:
`bufferTooShortHeader` is the ValueError "Initialize requires a buffer of at
least 4 bytes"; `bufferTooShortData n` the ValueError "Not enough data in
buffer, expected %d bytes" (carrying the declared length `n`);
`valueErrorNonIntKey` the ValueError "get called with non-integer key";
`keyError k` the KeyError formatted with "%d" from the `uint32_t` key, hence
carrying its signed 32-bit reinterpretation; `runtimeInvalidMode m` the
RuntimeError "Invalid mode for KeyMapIterator: %d"; `shortReadU32` and
`shortReadI32` the ValueErrors of the two unpacking helpers. -/
inductive PyErr where
  | bufferTooShortHeader
  | bufferTooShortData (n : Int)
  | valueErrorNonIntKey
  | keyError (k : Int)
  | runtimeInvalidMode (m : Int)
  | shortReadU32
  | shortReadI32
deriving DecidableEq

/-- Outcome of a call into the module: a Python value, iterator exhaustion
(`NULL` without an exception), a raised exception, or an out-of-bounds memory
access (undefined behavior in the C original, surfaced explicitly here). -/
inductive PyOut where
  | ok (v : PyVal)
  | stop
  | err (e : PyErr)
  | oobRead
deriving DecidableEq

/-- Outcome of `keymap_initialize`: an initialized table or one of the other
outcomes. -/
inductive InitResult where
  | ok (t : PyKeyMapObject)
  | err (e : PyErr)
  | oobRead
deriving DecidableEq

/-- Outcome of the C `bsearch` call: the index of a record whose comparator
result was 0, no match, or an out-of-bounds element read. -/
inductive BRes where
  | foundAt (i : Nat)
  | notFound
  | oob
deriving DecidableEq

/-- `keymap_initialize` (fsd.c lines 128-170).  Checks `offset > size - 4`,
reads the 4-byte signed count at `offset`, advances past the prefix, checks
`size < length`, and on success stores the borrowed region and the count.
The C code reads `data[offset]` whenever the first guard passes, including
for negative `offset`; the model's guarded read turns that into `oobRead`. -/
def keymap_initialize (buf : List Nat) (offset : Int) : InitResult :=
  if offset > (buf.length : Int) - 4 then .err .bufferTooShortHeader
  else
    match readInt32 buf offset with
    | some n =>
        if (buf.length : Int) - (offset + 4) < n then .err (.bufferTooShortData n)
        else .ok ⟨buf.drop (offset + 4).toNat, n⟩
    | none => .oobRead

/-- `_keycmp` (fsd.c lines 180-183): `a->key - b->key` computed in `uint32_t`
arithmetic and converted to the `int` return type, i.e. the signed 32-bit
reinterpretation of the difference modulo 2^32. -/
def _keycmp (a b : Nat) : Int :=
  toInt32 ((a + 4294967296 - b) % 4294967296)

/-- The C standard library `bsearch` loop (glibc algorithm: half-open window
`[l, u)`, probe at `(l + u) / 2`), searching the record region for a record
whose key compares equal to `k` under `_keycmp`.  The comparator reads only
the probed record's key word (the probe argument `&k` is not in memory).  The
first argument of the fuel-structured recursion is initialized to the window
width, which the recursion never exhausts (the window shrinks by at least one
element per step), so the fuel-zero branch is unreachable from `bsearch`. -/
def bsearchGo (data : List Nat) (k : Nat) : Nat → Nat → Nat → BRes
  | 0, _, _ => .notFound
  | fuel + 1, l, u =>
    if l < u then
      let idx := (l + u) / 2
      match readUInt32 data (12 * (idx : Int)) with
      | some ek =>
          if _keycmp k ek < 0 then bsearchGo data k fuel l idx
          else if 0 < _keycmp k ek then bsearchGo data k fuel (idx + 1) u
          else .foundAt idx
      | none => .oob
    else .notFound

/-- `bsearch(&k, data, nmemb, 12, _keycmp)`. -/
def bsearch (data : List Nat) (k : Nat) (nmemb : Nat) : BRes :=
  bsearchGo data k nmemb 0 nmemb

/-- `_internal_get` (fsd.c lines 186-217).  Rejects non-integer keys with a
ValueError; converts the key with `PyInt_AsLong` assigned to a `uint32_t`,
i.e. reduction modulo 2^32 (modeled for keys representable in a C `long`);
binary-searches the region; on a miss either raises `KeyError` formatted with
"%d" (so the carried value is the signed reinterpretation of the key) or
returns `None`; on a hit builds the `(value1, value2)` tuple, reading the two
value words of the found record. -/
def _internal_get (t : PyKeyMapObject) (key : PyVal) (raise : Bool) : PyOut :=
  match key with
  | .int z =>
      let k : Nat := (z % 4294967296).toNat
      match bsearch t.km_data k t.km_length.toNat with
      | .foundAt i =>
          match readUInt32 t.km_data (12 * (i : Int) + 4),
                readUInt32 t.km_data (12 * (i : Int) + 8) with
          | some v1, some v2 => .ok (.pair (.int v1) (.int v2))
          | _, _ => .oobRead
      | .notFound =>
          if raise then .err (.keyError (toInt32 k)) else .ok .none
      | .oob => .oobRead
  | _ => .err .valueErrorNonIntKey

/-- `keymap_get` (fsd.c lines 219-223): the soft lookup, `_internal_get` with
`raise = 0`. -/
def keymap_get (t : PyKeyMapObject) (key : PyVal) : PyOut :=
  _internal_get t key false

/-- `keymap_mp_subscript` (fsd.c lines 248-252): the strict indexed-subscript
lookup, `_internal_get` with `raise = 1`. -/
def keymap_mp_subscript (t : PyKeyMapObject) (key : PyVal) : PyOut :=
  _internal_get t key true

/-- `keymap_obj_length` (fsd.c lines 242-246): returns `km_length`. -/
def keymap_obj_length (t : PyKeyMapObject) : Int :=
  t.km_length

/-- `_iter` (fsd.c lines 28-41): allocates an iterator (index zeroed by the
allocator) over the given keymap with the given mode. -/
def _iter (keymap : PyKeyMapObject) (mode : Int) : PyKeyMapIteratorObject :=
  ⟨keymap, mode, 0⟩

/-- `keymap_iterkeys` (fsd.c lines 254-258). -/
def keymap_iterkeys (t : PyKeyMapObject) : PyKeyMapIteratorObject := _iter t 0

/-- `keymap_itervalues` (fsd.c lines 260-264). -/
def keymap_itervalues (t : PyKeyMapObject) : PyKeyMapIteratorObject := _iter t 1

/-- `keymap_iteritems` (fsd.c lines 266-270). -/
def keymap_iteritems (t : PyKeyMapObject) : PyKeyMapIteratorObject := _iter t 2

/-- `keymap_iterspecial` (fsd.c lines 272-278): takes a raw mode integer with
no validation ("nope, no safety check") and constructs the iterator. -/
def keymap_iterspecial (t : PyKeyMapObject) (mode : Int) : PyKeyMapIteratorObject :=
  _iter t mode

/-- `keymapiter_next` (fsd.c lines 51-77).  Signals exhaustion when the index
is negative or has reached `km_length`; otherwise takes the address of the
record at the current index, post-increments the index, and switches on the
mode, reading exactly the record words each projection needs; an unrecognized
mode raises the RuntimeError after the index was already incremented, without
touching record memory. -/
def keymapiter_next (it : PyKeyMapIteratorObject) : PyOut × PyKeyMapIteratorObject :=
  if it.kmi_index < 0 ∨ it.kmi_index ≥ it.kmi_keymap.km_length then (.stop, it)
  else
    let it2 : PyKeyMapIteratorObject := ⟨it.kmi_keymap, it.kmi_mode, it.kmi_index + 1⟩
    let base : Int := 12 * it.kmi_index
    let data := it.kmi_keymap.km_data
    if it.kmi_mode = 0 then
      match readUInt32 data base with
      | some k => (.ok (.int k), it2)
      | none => (.oobRead, it2)
    else if it.kmi_mode = 1 then
      match readUInt32 data (base + 4), readUInt32 data (base + 8) with
      | some v1, some v2 => (.ok (.pair (.int v1) (.int v2)), it2)
      | _, _ => (.oobRead, it2)
    else if it.kmi_mode = 2 then
      match readUInt32 data base, readUInt32 data (base + 4), readUInt32 data (base + 8) with
      | some k, some v1, some v2 =>
          (.ok (.pair (.int k) (.pair (.int v1) (.int v2))), it2)
      | _, _, _ => (.oobRead, it2)
    else if it.kmi_mode = 3 then
      match readUInt32 data (base + 4) with
      | some v1 => (.ok (.int v1), it2)
      | none => (.oobRead, it2)
    else if it.kmi_mode = 4 then
      match readUInt32 data base, readUInt32 data (base + 4) with
      | some k, some v1 => (.ok (.pair (.int k) (.int v1)), it2)
      | _, _ => (.oobRead, it2)
    else (.err (.runtimeInvalidMode it.kmi_mode), it2)

/-- `fsd_uint32_from` (fsd.c lines 361-373): bounds check
`offset >= 0 && offset <= size - 4`, then an unsigned little-endian read. -/
def fsd_uint32_from (buf : List Nat) (offset : Int) : PyOut :=
  if 0 ≤ offset ∧ offset ≤ (buf.length : Int) - 4 then
    match readUInt32 buf offset with
    | some v => .ok (.int v)
    | none => .oobRead
  else .err .shortReadU32

/-- `fsd_int32_from` (fsd.c lines 375-387): same bounds check, signed read. -/
def fsd_int32_from (buf : List Nat) (offset : Int) : PyOut :=
  if 0 ≤ offset ∧ offset ≤ (buf.length : Int) - 4 then
    match readInt32 buf offset with
    | some v => .ok (.int v)
    | none => .oobRead
  else .err .shortReadI32

/-- Little-endian encoding of a 32-bit unsigned integer (specification-side:
the byte layout consumed by the reads above). -/
def encodeU32 (n : Nat) : List Nat :=
  [n % 256, n / 256 % 256, n / 65536 % 256, n / 16777216 % 256]

/-- Little-endian encoding of a signed 32-bit integer (two's complement). -/
def encodeInt32 (z : Int) : List Nat :=
  encodeU32 (z % 4294967296).toNat

/-- Byte encoding of one record. -/
def encodeEntry (e : keymap_entry) : List Nat :=
  encodeU32 e.key ++ encodeU32 e.value1 ++ encodeU32 e.value2

/-- Byte encoding of the record region: the records back to back. -/
def recordBytes (es : List keymap_entry) : List Nat :=
  (es.map encodeEntry).flatten

/-- Byte encoding of a whole table: record count, then the record region.
This is the valid-buffer layout of the binary format. -/
def encodeTable (es : List keymap_entry) : List Nat :=
  encodeU32 es.length ++ recordBytes es

/-- Well-formed record list: every field is a 32-bit value. -/
def wfEntries (es : List keymap_entry) : Prop :=
  ∀ e ∈ es, e.key < 4294967296 ∧ e.value1 < 4294967296 ∧ e.value2 < 4294967296

/-- Run an iterator to exhaustion (bounded by fuel), collecting the values it
yields; collection stops at the first outcome that is not a value. -/
def iterRun : Nat → PyKeyMapIteratorObject → List PyVal
  | 0, _ => []
  | fuel + 1, it =>
    match keymapiter_next it with
    | (.ok v, it2) => v :: iterRun fuel it2
    | _ => []

/-! ## Byte-read lemmas -/

theorem readU8_in_bounds (buf : List Nat) (i : Int) (h0 : 0 ≤ i)
    (h1 : i < (buf.length : Int)) :
    readU8 buf i = some (buf.getD i.toNat 0 % 256) := by
  unfold readU8
  rw [if_pos ⟨h0, h1⟩]

theorem readU8_neg (buf : List Nat) (i : Int) (h : i < 0) : readU8 buf i = none := by
  unfold readU8
  rw [if_neg]
  intro hc
  omega

theorem readU8_append_right (a b : List Nat) (j : Int) (hj : 0 ≤ j) :
    readU8 (a ++ b) ((a.length : Int) + j) = readU8 b j := by
  unfold readU8
  by_cases h : 0 ≤ j ∧ j < (b.length : Int)
  · rw [if_pos, if_pos h]
    · have ht : ((a.length : Int) + j).toNat = a.length + j.toNat := by omega
      rw [ht, List.getD_append_right a b 0 _ (by omega)]
      have hidx : a.length + j.toNat - a.length = j.toNat := by omega
      rw [hidx]
    · refine ⟨by omega, ?_⟩
      simp only [List.length_append]
      push_cast
      omega
  · rw [if_neg, if_neg h]
    intro hc
    apply h
    simp only [List.length_append] at hc
    push_cast at hc
    exact ⟨hj, by omega⟩

theorem readU8_append_left (a b : List Nat) (j : Int) (h0 : 0 ≤ j)
    (h1 : j < (a.length : Int)) :
    readU8 (a ++ b) j = readU8 a j := by
  rw [readU8_in_bounds _ _ h0 (by simp only [List.length_append]; push_cast; omega),
    readU8_in_bounds _ _ h0 h1]
  rw [List.getD_append a b 0 _ (by omega)]

theorem readUInt32_append_right (a b : List Nat) (j : Int) (hj : 0 ≤ j) :
    readUInt32 (a ++ b) ((a.length : Int) + j) = readUInt32 b j := by
  unfold readUInt32
  have e1 : (a.length : Int) + j + 1 = (a.length : Int) + (j + 1) := by ring
  have e2 : (a.length : Int) + j + 2 = (a.length : Int) + (j + 2) := by ring
  have e3 : (a.length : Int) + j + 3 = (a.length : Int) + (j + 3) := by ring
  rw [readU8_append_right a b j hj, e1, readU8_append_right a b _ (by omega),
    e2, readU8_append_right a b _ (by omega), e3, readU8_append_right a b _ (by omega)]

theorem readUInt32_append_left (a b : List Nat) (j : Int) (h0 : 0 ≤ j)
    (h1 : j + 4 ≤ (a.length : Int)) :
    readUInt32 (a ++ b) j = readUInt32 a j := by
  unfold readUInt32
  rw [readU8_append_left a b j h0 (by omega), readU8_append_left a b _ (by omega) (by omega),
    readU8_append_left a b _ (by omega) (by omega), readU8_append_left a b _ (by omega) (by omega)]

theorem length_encodeU32 (n : Nat) : (encodeU32 n).length = 4 := rfl

theorem length_encodeEntry (e : keymap_entry) : (encodeEntry e).length = 12 := by
  simp [encodeEntry, encodeU32]

theorem length_recordBytes (es : List keymap_entry) :
    (recordBytes es).length = 12 * es.length := by
  induction es with
  | nil => rfl
  | cons e es ih =>
    simp only [recordBytes, List.map_cons, List.flatten_cons, List.length_append,
      length_encodeEntry, List.length_cons] at ih ⊢
    omega

theorem readUInt32_encodeU32 (n : Nat) (rest : List Nat) :
    readUInt32 (encodeU32 n ++ rest) 0 = some (n % 4294967296) := by
  have hlen : (4 : Int) ≤ ((encodeU32 n ++ rest).length : Int) := by
    simp only [List.length_append, length_encodeU32]
    push_cast
    omega
  unfold readUInt32
  rw [readU8_in_bounds _ _ (by omega) (by omega),
    readU8_in_bounds _ _ (by omega) (by omega),
    readU8_in_bounds _ _ (by omega) (by omega),
    readU8_in_bounds _ _ (by omega) (by omega)]
  have e0 : (0 : Int).toNat = 0 := by decide
  have e1 : ((0 : Int) + 1).toNat = 1 := by decide
  have e2 : ((0 : Int) + 2).toNat = 2 := by decide
  have e3 : ((0 : Int) + 3).toNat = 3 := by decide
  rw [e0, e1, e2, e3]
  simp only [encodeU32, List.cons_append, List.getD_cons_succ, List.getD_cons_zero,
    Option.some.injEq]
  omega

/-! ## Record-region access lemmas -/

theorem recordBytes_cons (e : keymap_entry) (es : List keymap_entry) :
    recordBytes (e :: es) = encodeEntry e ++ recordBytes es := by
  simp [recordBytes]

theorem read_key (es : List keymap_entry) (hwf : wfEntries es) (i : Nat)
    (h : i < es.length) :
    readUInt32 (recordBytes es) (12 * (i : Int)) = some (es[i].key) := by
  induction es generalizing i with
  | nil => simp at h
  | cons e es ih =>
    have hwfe := hwf e (List.mem_cons_self e es)
    cases i with
    | zero =>
      have hsplit : recordBytes (e :: es)
          = encodeU32 e.key ++ (encodeU32 e.value1 ++ (encodeU32 e.value2 ++ recordBytes es)) := by
        simp [recordBytes, encodeEntry, List.append_assoc]
      rw [show (12 * (((0 : Nat) : Int))) = (0 : Int) by norm_num, hsplit,
        readUInt32_encodeU32]
      simp only [List.getElem_cons_zero, Option.some.injEq]
      omega
    | succ j =>
      rw [recordBytes_cons]
      have e12 : (12 : Int) * (((j + 1 : Nat)) : Int)
          = ((encodeEntry e).length : Int) + 12 * (j : Int) := by
        rw [length_encodeEntry]
        push_cast
        ring
      rw [e12, readUInt32_append_right _ _ _ (by positivity)]
      rw [ih (fun x hx => hwf x (List.mem_cons_of_mem e hx)) j (by simpa using h)]
      simp

theorem read_value1 (es : List keymap_entry) (hwf : wfEntries es) (i : Nat)
    (h : i < es.length) :
    readUInt32 (recordBytes es) (12 * (i : Int) + 4) = some (es[i].value1) := by
  induction es generalizing i with
  | nil => simp at h
  | cons e es ih =>
    have hwfe := hwf e (List.mem_cons_self e es)
    cases i with
    | zero =>
      have hsplit : recordBytes (e :: es)
          = encodeU32 e.key ++ (encodeU32 e.value1 ++ (encodeU32 e.value2 ++ recordBytes es)) := by
        simp [recordBytes, encodeEntry, List.append_assoc]
      rw [show (12 * (((0 : Nat) : Int)) + 4) = (((encodeU32 e.key).length : Int) + 0) by
          rw [length_encodeU32]; norm_num,
        hsplit, readUInt32_append_right _ _ _ (by norm_num), readUInt32_encodeU32]
      simp only [List.getElem_cons_zero, Option.some.injEq]
      omega
    | succ j =>
      rw [recordBytes_cons]
      have e12 : (12 : Int) * (((j + 1 : Nat)) : Int) + 4
          = ((encodeEntry e).length : Int) + (12 * (j : Int) + 4) := by
        rw [length_encodeEntry]
        push_cast
        ring
      rw [e12, readUInt32_append_right _ _ _ (by positivity)]
      rw [ih (fun x hx => hwf x (List.mem_cons_of_mem e hx)) j (by simpa using h)]
      simp

theorem read_value2 (es : List keymap_entry) (hwf : wfEntries es) (i : Nat)
    (h : i < es.length) :
    readUInt32 (recordBytes es) (12 * (i : Int) + 8) = some (es[i].value2) := by
  induction es generalizing i with
  | nil => simp at h
  | cons e es ih =>
    have hwfe := hwf e (List.mem_cons_self e es)
    cases i with
    | zero =>
      have hsplit : recordBytes (e :: es)
          = encodeU32 e.key ++ (encodeU32 e.value1 ++ (encodeU32 e.value2 ++ recordBytes es)) := by
        simp [recordBytes, encodeEntry, List.append_assoc]
      rw [show (12 * (((0 : Nat) : Int)) + 8) = (((encodeU32 e.key).length : Int) + 4) by
          rw [length_encodeU32]; norm_num,
        hsplit, readUInt32_append_right _ _ _ (by norm_num),
        show (4 : Int) = (((encodeU32 e.value1).length : Int) + 0) by rw [length_encodeU32]; norm_num,
        readUInt32_append_right _ _ _ (by norm_num), readUInt32_encodeU32]
      simp only [List.getElem_cons_zero, Option.some.injEq]
      omega
    | succ j =>
      rw [recordBytes_cons]
      have e12 : (12 : Int) * (((j + 1 : Nat)) : Int) + 8
          = ((encodeEntry e).length : Int) + (12 * (j : Int) + 8) := by
        rw [length_encodeEntry]
        push_cast
        ring
      rw [e12, readUInt32_append_right _ _ _ (by positivity)]
      rw [ih (fun x hx => hwf x (List.mem_cons_of_mem e hx)) j (by simpa using h)]
      simp

/-! ## Initialization on a valid buffer -/

theorem keymap_initialize_encodeTable (es : List keymap_entry)
    (hlen : es.length < 2147483648) :
    keymap_initialize (encodeTable es) 0 = .ok ⟨recordBytes es, (es.length : Int)⟩ := by
  have hsize : ((encodeTable es).length : Int) = 4 + 12 * es.length := by
    simp only [encodeTable, List.length_append, length_encodeU32, length_recordBytes]
    push_cast
    ring
  have hread : readInt32 (encodeTable es) 0 = some ((es.length : Nat) : Int) := by
    unfold readInt32 encodeTable
    rw [readUInt32_encodeU32, Nat.mod_eq_of_lt (by omega)]
    simp only [Option.map_some']
    unfold toInt32
    rw [if_pos hlen]
  unfold keymap_initialize
  rw [if_neg (by omega)]
  simp only [hread]
  rw [if_neg (by push_cast; omega)]
  have hdrop : (encodeTable es).drop ((0 : Int) + 4).toNat = recordBytes es := by
    have h4 : ((0 : Int) + 4).toNat = (encodeU32 es.length).length := by
      rw [length_encodeU32]
      decide
    rw [h4]
    exact List.drop_left _ _
  rw [hdrop]

/-! ## Comparator sign lemmas -/

theorem _keycmp_self (a : Nat) : _keycmp a a = 0 := by
  unfold _keycmp toInt32
  have hm : (a + 4294967296 - a) % 4294967296 = 0 := by omega
  rw [hm, if_pos (by norm_num)]
  norm_num

theorem _keycmp_neg (a b : Nat) (ha : a < 2147483648) (hb : b < 2147483648)
    (hab : a < b) : _keycmp a b < 0 := by
  unfold _keycmp toInt32
  have hm : (a + 4294967296 - b) % 4294967296 = a + 4294967296 - b :=
    Nat.mod_eq_of_lt (by omega)
  rw [hm, if_neg (by omega)]
  omega

theorem _keycmp_pos (a b : Nat) (ha : a < 2147483648) (hb : b < 2147483648)
    (hab : b < a) : 0 < _keycmp a b := by
  unfold _keycmp toInt32
  have hm : (a + 4294967296 - b) % 4294967296 = a - b := by omega
  rw [hm, if_pos (by omega)]
  omega

theorem _keycmp_eq_zero_iff (a b : Nat) (ha : a < 4294967296) (hb : b < 4294967296) :
    _keycmp a b = 0 ↔ a = b := by
  unfold _keycmp toInt32
  by_cases h : (a + 4294967296 - b) % 4294967296 < 2147483648
  · rw [if_pos h]
    omega
  · rw [if_neg h]
    omega

/-! ## Binary-search correctness on a well-formed sorted region -/

theorem bsearchGo_found (es : List keymap_entry) (k : Nat)
    (hwf : wfEntries es)
    (hk31 : ∀ e ∈ es, e.key < 2147483648)
    (hsorted : ∀ (i j : Nat) (hi : i < es.length) (hj : j < es.length),
      i < j → es[i].key < es[j].key) :
    ∀ (fuel l u i : Nat) (h1 : l ≤ i) (h2 : i < u) (h3 : u ≤ es.length)
      (h4 : u - l ≤ fuel) (h5 : es[i].key = k),
      bsearchGo (recordBytes es) k fuel l u = .foundAt i := by
  intro fuel
  induction fuel with
  | zero =>
    intro l u i h1 h2 h3 h4 h5
    exfalso
    omega
  | succ fuel ih =>
    intro l u i h1 h2 h3 h4 h5
    have hlu : l < u := by omega
    have hilen : i < es.length := by omega
    have hidxlen : (l + u) / 2 < es.length := by omega
    have hkey31 : k < 2147483648 := by
      rw [← h5]
      exact hk31 (es[i]) (List.getElem_mem hilen)
    have hprobe31 : es[(l + u) / 2].key < 2147483648 :=
      hk31 (es[(l + u) / 2]) (List.getElem_mem hidxlen)
    simp only [bsearchGo, hlu, if_true, read_key es hwf _ hidxlen]
    rcases Nat.lt_trichotomy i ((l + u) / 2) with hlt | heq | hgt
    · have hord : k < es[(l + u) / 2].key := by
        rw [← h5]
        exact hsorted i ((l + u) / 2) hilen hidxlen hlt
      rw [if_pos (_keycmp_neg k _ hkey31 hprobe31 hord)]
      exact ih l ((l + u) / 2) i h1 hlt (by omega) (by omega) h5
    · subst heq
      have hc0 : _keycmp k (es[(l + u) / 2].key) = 0 := by
        rw [h5]
        exact _keycmp_self k
      rw [if_neg (by omega), if_neg (by omega)]
    · have hord : es[(l + u) / 2].key < k := by
        rw [← h5]
        exact hsorted ((l + u) / 2) i hidxlen hilen hgt
      have hcp := _keycmp_pos k _ hkey31 hprobe31 hord
      rw [if_neg (by omega), if_pos hcp]
      exact ih ((l + u) / 2 + 1) u i (by omega) h2 h3 (by omega) h5

theorem bsearchGo_notFound (es : List keymap_entry) (k : Nat)
    (hwf : wfEntries es) (hk : k < 4294967296)
    (habsent : ∀ e ∈ es, e.key ≠ k) :
    ∀ (fuel l u : Nat), u ≤ es.length →
      bsearchGo (recordBytes es) k fuel l u = .notFound := by
  intro fuel
  induction fuel with
  | zero =>
    intro l u h3
    rfl
  | succ fuel ih =>
    intro l u h3
    by_cases hlu : l < u
    · have hidxlen : (l + u) / 2 < es.length := by omega
      have hprobe32 : es[(l + u) / 2].key < 4294967296 :=
        (hwf (es[(l + u) / 2]) (List.getElem_mem hidxlen)).1
      have hne : _keycmp k (es[(l + u) / 2].key) ≠ 0 := by
        intro h0
        exact habsent (es[(l + u) / 2]) (List.getElem_mem hidxlen)
          ((_keycmp_eq_zero_iff k _ hk hprobe32).mp h0).symm
      simp only [bsearchGo, hlu, if_true, read_key es hwf _ hidxlen]
      by_cases hneg : _keycmp k (es[(l + u) / 2].key) < 0
      · rw [if_pos hneg]
        exact ih l ((l + u) / 2) (by omega)
      · rw [if_neg hneg, if_pos (by omega)]
        exact ih ((l + u) / 2 + 1) u h3
    · simp only [bsearchGo, hlu, if_false]

/-! ## Lookup evaluation on a valid table -/

theorem internal_get_hit (es : List keymap_entry)
    (hwf : wfEntries es) (hlen : es.length < 2147483648)
    (hk31 : ∀ e ∈ es, e.key < 2147483648)
    (hsorted : List.Pairwise (fun a b => a.key < b.key) es)
    (i : Nat) (hi : i < es.length) (raise : Bool) :
    _internal_get ⟨recordBytes es, (es.length : Int)⟩ (.int (es[i].key)) raise
      = .ok (.pair (.int (es[i].value1)) (.int (es[i].value2))) := by
  have hkey32 : es[i].key < 2147483648 := hk31 (es[i]) (List.getElem_mem hi)
  have hk : (((es[i].key : Nat) : Int) % 4294967296).toNat = es[i].key := by omega
  have hlen2 : ((es.length : Nat) : Int).toNat = es.length := by omega
  have hfound := bsearchGo_found es (es[i].key) hwf hk31
    (fun a b ha hb hab => List.pairwise_iff_getElem.mp hsorted a b ha hb hab)
    es.length 0 es.length i (by omega) hi le_rfl (by omega) rfl
  simp only [_internal_get, hk, bsearch, hlen2, hfound, read_value1 es hwf i hi,
    read_value2 es hwf i hi]

theorem internal_get_miss (es : List keymap_entry)
    (hwf : wfEntries es) (hlen : es.length < 2147483648)
    (k : Nat) (hk : k < 4294967296)
    (habsent : ∀ e ∈ es, e.key ≠ k) (raise : Bool) :
    _internal_get ⟨recordBytes es, (es.length : Int)⟩ (.int (k : Int)) raise
      = if raise then .err (.keyError (toInt32 k)) else .ok .none := by
  have hkn : (((k : Nat) : Int) % 4294967296).toNat = k := by omega
  have hlen2 : ((es.length : Nat) : Int).toNat = es.length := by omega
  have hnf := bsearchGo_notFound es k hwf hk habsent es.length 0 es.length le_rfl
  simp only [_internal_get, hkn, bsearch, hlen2, hnf]

/-! ## Iterator step lemmas -/

theorem keymapiter_next_stop (t : PyKeyMapObject) (mode i : Int)
    (h : i < 0 ∨ t.km_length ≤ i) :
    keymapiter_next ⟨t, mode, i⟩ = (.stop, ⟨t, mode, i⟩) := by
  simp only [keymapiter_next]
  rw [if_pos (by omega)]

theorem keymapiter_next_invalid (t : PyKeyMapObject) (mode : Int)
    (hmode : mode < 0 ∨ 4 < mode) (i : Int) (h0 : 0 ≤ i) (h1 : i < t.km_length) :
    keymapiter_next ⟨t, mode, i⟩ = (.err (.runtimeInvalidMode mode), ⟨t, mode, i + 1⟩) := by
  simp only [keymapiter_next]
  rw [if_neg (by omega), if_neg (by omega), if_neg (by omega), if_neg (by omega),
    if_neg (by omega), if_neg (by omega)]

theorem keymapiter_next_mode0 (es : List keymap_entry) (hwf : wfEntries es)
    (j : Nat) (hj : j < es.length) :
    keymapiter_next ⟨⟨recordBytes es, (es.length : Int)⟩, 0, (j : Int)⟩
      = (.ok (.int (es[j].key)),
         ⟨⟨recordBytes es, (es.length : Int)⟩, 0, (j : Int) + 1⟩) := by
  simp only [keymapiter_next]
  rw [if_neg (by omega)]
  simp only [if_true, read_key es hwf j hj]

theorem keymapiter_next_mode1 (es : List keymap_entry) (hwf : wfEntries es)
    (j : Nat) (hj : j < es.length) :
    keymapiter_next ⟨⟨recordBytes es, (es.length : Int)⟩, 1, (j : Int)⟩
      = (.ok (.pair (.int (es[j].value1)) (.int (es[j].value2))),
         ⟨⟨recordBytes es, (es.length : Int)⟩, 1, (j : Int) + 1⟩) := by
  simp only [keymapiter_next]
  rw [if_neg (by omega), if_neg (by omega)]
  simp only [if_true, read_value1 es hwf j hj, read_value2 es hwf j hj]

theorem keymapiter_next_mode2 (es : List keymap_entry) (hwf : wfEntries es)
    (j : Nat) (hj : j < es.length) :
    keymapiter_next ⟨⟨recordBytes es, (es.length : Int)⟩, 2, (j : Int)⟩
      = (.ok (.pair (.int (es[j].key))
              (.pair (.int (es[j].value1)) (.int (es[j].value2)))),
         ⟨⟨recordBytes es, (es.length : Int)⟩, 2, (j : Int) + 1⟩) := by
  simp only [keymapiter_next]
  rw [if_neg (by omega), if_neg (by omega), if_neg (by omega)]
  simp only [if_true, read_key es hwf j hj, read_value1 es hwf j hj, read_value2 es hwf j hj]

theorem keymapiter_next_mode3 (es : List keymap_entry) (hwf : wfEntries es)
    (j : Nat) (hj : j < es.length) :
    keymapiter_next ⟨⟨recordBytes es, (es.length : Int)⟩, 3, (j : Int)⟩
      = (.ok (.int (es[j].value1)),
         ⟨⟨recordBytes es, (es.length : Int)⟩, 3, (j : Int) + 1⟩) := by
  simp only [keymapiter_next]
  rw [if_neg (by omega), if_neg (by omega), if_neg (by omega), if_neg (by omega)]
  simp only [if_true, read_value1 es hwf j hj]

theorem keymapiter_next_mode4 (es : List keymap_entry) (hwf : wfEntries es)
    (j : Nat) (hj : j < es.length) :
    keymapiter_next ⟨⟨recordBytes es, (es.length : Int)⟩, 4, (j : Int)⟩
      = (.ok (.pair (.int (es[j].key)) (.int (es[j].value1))),
         ⟨⟨recordBytes es, (es.length : Int)⟩, 4, (j : Int) + 1⟩) := by
  simp only [keymapiter_next]
  rw [if_neg (by omega), if_neg (by omega), if_neg (by omega), if_neg (by omega),
    if_neg (by omega)]
  simp only [if_true, read_key es hwf j hj, read_value1 es hwf j hj]

theorem keymapiter_next_valid_mode_ok (es : List keymap_entry) (hwf : wfEntries es)
    (mode : Int) (hm0 : 0 ≤ mode) (hm4 : mode ≤ 4) (j : Nat) (hj : j < es.length) :
    ∃ v, keymapiter_next ⟨⟨recordBytes es, (es.length : Int)⟩, mode, (j : Int)⟩
      = (.ok v, ⟨⟨recordBytes es, (es.length : Int)⟩, mode, (j : Int) + 1⟩) := by
  interval_cases mode
  · exact ⟨_, keymapiter_next_mode0 es hwf j hj⟩
  · exact ⟨_, keymapiter_next_mode1 es hwf j hj⟩
  · exact ⟨_, keymapiter_next_mode2 es hwf j hj⟩
  · exact ⟨_, keymapiter_next_mode3 es hwf j hj⟩
  · exact ⟨_, keymapiter_next_mode4 es hwf j hj⟩

theorem iterRun_length_from (es : List keymap_entry) (hwf : wfEntries es)
    (mode : Int) (hm0 : 0 ≤ mode) (hm4 : mode ≤ 4) :
    ∀ (fuel j : Nat) (hj : j ≤ es.length) (hfuel : es.length ≤ j + fuel),
      (iterRun fuel ⟨⟨recordBytes es, (es.length : Int)⟩, mode, (j : Int)⟩).length
        = es.length - j := by
  intro fuel
  induction fuel with
  | zero =>
    intro j hj hfuel
    have : es.length - j = 0 := by omega
    rw [this]
    rfl
  | succ fuel ih =>
    intro j hj hfuel
    by_cases hjl : j < es.length
    · obtain ⟨v, hv⟩ := keymapiter_next_valid_mode_ok es hwf mode hm0 hm4 j hjl
      have hsucc : ((j : Int) + 1) = ((j + 1 : Nat) : Int) := by push_cast; ring
      rw [hsucc] at hv
      simp only [iterRun, hv, List.length_cons]
      rw [ih (j + 1) (by omega) (by omega)]
      omega
    · have hstop := keymapiter_next_stop ⟨recordBytes es, (es.length : Int)⟩ mode
        (j : Int) (by right; simp only []; omega)
      simp only [iterRun, hstop]
      simp only [List.length_nil]
      omega

/-- Helper: reading back the two's-complement encoding of a signed 32-bit
value recovers the value. -/
theorem toInt32_emod (z : Int) (hz1 : -2147483648 ≤ z) (hz2 : z < 2147483648) :
    toInt32 ((z % 4294967296).toNat % 4294967296) = z := by
  unfold toInt32
  by_cases h : (z % 4294967296).toNat % 4294967296 < 2147483648
  · rw [if_pos h]
    omega
  · rw [if_neg h]
    omega

/-- Claim C2: `Initialize(buffer, offset)` fails with `BufferTooShort` exactly
when the offset leaves fewer than 4 bytes before the end of the buffer (which
subsumes a buffer shorter than 4 bytes, for the spec's nonnegative offsets),
or when the declared region length `N` read at the offset exceeds the bytes
remaining after the prefix (compared as `N` against bytes, not `N * 12`); in
the latter case the error carries `N`, and in every other case with a
nonnegative in-range offset the prefix read succeeds and initialization
returns the table. -/
theorem c2_initialize_buffer_too_short (buf : List Nat) (offset n : Int)
    (hoff : 0 ≤ offset) :
    ((buf.length : Int) - 4 < offset →
      keymap_initialize buf offset = .err .bufferTooShortHeader) ∧
    (offset ≤ (buf.length : Int) - 4 →
      ∃ m, readInt32 buf offset = some m) ∧
    (offset ≤ (buf.length : Int) - 4 → readInt32 buf offset = some n →
      (((buf.length : Int) - (offset + 4) < n →
        keymap_initialize buf offset = .err (.bufferTooShortData n)) ∧
       (n ≤ (buf.length : Int) - (offset + 4) →
        keymap_initialize buf offset = .ok ⟨buf.drop (offset + 4).toNat, n⟩))) := by
  refine ⟨?_, ?_, ?_⟩
  · intro h
    unfold keymap_initialize
    rw [if_pos (by omega)]
  · intro hle
    unfold readInt32 readUInt32
    rw [readU8_in_bounds _ _ (by omega) (by omega), readU8_in_bounds _ _ (by omega) (by omega),
      readU8_in_bounds _ _ (by omega) (by omega), readU8_in_bounds _ _ (by omega) (by omega)]
    exact ⟨_, rfl⟩
  · intro hle hread
    constructor
    · intro hn
      unfold keymap_initialize
      rw [if_neg (by omega)]
      simp only [hread]
      rw [if_pos hn]
    · intro hn
      unfold keymap_initialize
      rw [if_neg (by omega)]
      simp only [hread]
      rw [if_neg (by omega)]

/-- Claim C2, witness: concrete instance at the 4-byte buffer `[1,0,0,0]`
(declared length 1, no bytes after the prefix). -/
theorem c2_initialize_buffer_too_short_witness :
    ((([1, 0, 0, 0] : List Nat).length : Int) - 4 < 0 →
      keymap_initialize [1, 0, 0, 0] 0 = .err .bufferTooShortHeader) ∧
    ((0 : Int) ≤ (([1, 0, 0, 0] : List Nat).length : Int) - 4 →
      ∃ m, readInt32 [1, 0, 0, 0] 0 = some m) ∧
    ((0 : Int) ≤ (([1, 0, 0, 0] : List Nat).length : Int) - 4 →
      readInt32 [1, 0, 0, 0] 0 = some 1 →
      (((([1, 0, 0, 0] : List Nat).length : Int) - (0 + 4) < 1 →
        keymap_initialize [1, 0, 0, 0] 0 = .err (.bufferTooShortData 1)) ∧
       ((1 : Int) ≤ (([1, 0, 0, 0] : List Nat).length : Int) - (0 + 4) →
        keymap_initialize [1, 0, 0, 0] 0
          = .ok ⟨([1, 0, 0, 0] : List Nat).drop ((0 : Int) + 4).toNat, 1⟩))) :=
  c2_initialize_buffer_too_short [1, 0, 0, 0] 0 1 (by norm_num)

/-- Claim C9: for every buffer and negative offset such that at least 4 bytes
lie past that negative position, the only guard of `Initialize` passes and
the 4-byte count prefix is read from before the start of the buffer: under
the guarded embedding this surfaces as the out-of-bounds outcome rather than
a `BufferTooShort` error. -/
theorem c9_negative_offset_oob (buf : List Nat) (offset : Int)
    (hneg : offset < 0) (hroom : offset ≤ (buf.length : Int) - 4) :
    keymap_initialize buf offset = .oobRead := by
  unfold keymap_initialize
  rw [if_neg (by omega)]
  have h : readInt32 buf offset = none := by
    unfold readInt32 readUInt32
    rw [readU8_neg _ _ hneg]
    rfl
  simp only [h]

/-- Claim C9, witness: a 3-byte buffer at offset -1 (so 4 bytes lie past the
offset) reaches the out-of-bounds prefix read. -/
theorem c9_negative_offset_oob_witness :
    keymap_initialize [0, 0, 0] (-1) = .oobRead :=
  c9_negative_offset_oob [0, 0, 0] (-1) (by norm_num) (by norm_num)

/-- Helper: the soft lookup and the strict subscript lookup are the same
search parameterized by a raise flag: on every table and key they either
return the identical result, or the search misses, the soft lookup returns
the `None` sentinel, and the strict lookup raises a `KeyError`. -/
theorem soft_strict_miss_or_equal (t : PyKeyMapObject) (key : PyVal) :
    (∃ z, keymap_get t key = .ok .none ∧
      keymap_mp_subscript t key = .err (.keyError z)) ∨
    keymap_get t key = keymap_mp_subscript t key := by
  cases key with
  | int z =>
    simp only [keymap_get, keymap_mp_subscript, _internal_get]
    cases hb : bsearch t.km_data ((z % 4294967296).toNat) t.km_length.toNat with
    | foundAt i =>
      right
      simp only [hb]
    | notFound =>
      left
      exact ⟨toInt32 ((z % 4294967296).toNat), by simp [hb], by simp [hb]⟩
    | oob =>
      right
      simp only [hb]
  | pair a b =>
    right
    rfl
  | none =>
    right
    rfl

/-- Claim C8, counterexample: the integer key 4294967301 = 2^32 + 5 is out of
the unsigned 32-bit range, so the claim demands an `InvalidKeyType` failure;
the code instead truncates it to 5 and both lookups return that record's
value pair. -/
theorem c8_counterexample :
    keymap_initialize (encodeTable [⟨5, 10, 20⟩]) 0 = .ok ⟨recordBytes [⟨5, 10, 20⟩], 1⟩ ∧
    keymap_get ⟨recordBytes [⟨5, 10, 20⟩], 1⟩ (.int 4294967301)
      = .ok (.pair (.int 10) (.int 20)) ∧
    keymap_get ⟨recordBytes [⟨5, 10, 20⟩], 1⟩ (.int 4294967301)
      ≠ .err .valueErrorNonIntKey ∧
    keymap_mp_subscript ⟨recordBytes [⟨5, 10, 20⟩], 1⟩ (.int 4294967301)
      = .ok (.pair (.int 10) (.int 20)) ∧
    keymap_mp_subscript ⟨recordBytes [⟨5, 10, 20⟩], 1⟩ (.int 4294967301)
      ≠ .err .valueErrorNonIntKey := by
  decide

/-- Claim C8 (amended): a non-integral lookup input fails with
`InvalidKeyType` in both lookup modes; an integral input that is out of the
unsigned 32-bit range is not rejected: both lookups reduce it modulo 2^32 and
search for the reduced key. -/
theorem c8_key_type_handling (t : PyKeyMapObject) (key : PyVal) (z : Int)
    (hkey : ∀ w : Int, key ≠ .int w) :
    keymap_get t key = .err .valueErrorNonIntKey ∧
    keymap_mp_subscript t key = .err .valueErrorNonIntKey ∧
    keymap_get t (.int z) = keymap_get t (.int (z % 4294967296)) ∧
    keymap_mp_subscript t (.int z) = keymap_mp_subscript t (.int (z % 4294967296)) := by
  refine ⟨?_, ?_, ?_, ?_⟩
  · cases key with
    | int w => exact absurd rfl (hkey w)
    | pair a b => rfl
    | none => rfl
  · cases key with
    | int w => exact absurd rfl (hkey w)
    | pair a b => rfl
    | none => rfl
  · simp only [keymap_get, _internal_get]
    rw [Int.emod_emod_of_dvd z dvd_rfl]
  · simp only [keymap_mp_subscript, _internal_get]
    rw [Int.emod_emod_of_dvd z dvd_rfl]

/-- Claim C8 (amended), witness: concrete instance on the empty table with a
non-integer key and the out-of-range integer 2^32 + 5. -/
theorem c8_key_type_handling_witness :
    keymap_get ⟨[], 0⟩ .none = .err .valueErrorNonIntKey ∧
    keymap_mp_subscript ⟨[], 0⟩ .none = .err .valueErrorNonIntKey ∧
    keymap_get ⟨[], 0⟩ (.int 4294967301)
      = keymap_get ⟨[], 0⟩ (.int (4294967301 % 4294967296)) ∧
    keymap_mp_subscript ⟨[], 0⟩ (.int 4294967301)
      = keymap_mp_subscript ⟨[], 0⟩ (.int (4294967301 % 4294967296)) :=
  c8_key_type_handling ⟨[], 0⟩ .none 4294967301 (fun w h => PyVal.noConfusion h)

/-- Claim C1, counterexample: the buffer encoding the records
`(0,10,20), (1,30,40), (2147483649,50,60)` is sorted by key, yet
`Get(2147483649)` misses: the subtraction comparator wraps for keys more than
2^31 apart, steering the binary search away from the matching record, so the
soft lookup returns `None` instead of the pair `(50, 60)`. -/
theorem c1_counterexample :
    keymap_initialize (encodeTable [⟨0, 10, 20⟩, ⟨1, 30, 40⟩, ⟨2147483649, 50, 60⟩]) 0
      = .ok ⟨recordBytes [⟨0, 10, 20⟩, ⟨1, 30, 40⟩, ⟨2147483649, 50, 60⟩], 3⟩ ∧
    List.Pairwise (fun a b => a.key < b.key)
      [(⟨0, 10, 20⟩ : keymap_entry), ⟨1, 30, 40⟩, ⟨2147483649, 50, 60⟩] ∧
    keymap_get ⟨recordBytes [⟨0, 10, 20⟩, ⟨1, 30, 40⟩, ⟨2147483649, 50, 60⟩], 3⟩
      (.int 2147483649) = .ok .none ∧
    keymap_get ⟨recordBytes [⟨0, 10, 20⟩, ⟨1, 30, 40⟩, ⟨2147483649, 50, 60⟩], 3⟩
      (.int 2147483649) ≠ .ok (.pair (.int 50) (.int 60)) := by
  decide

/-- Claim C1 (amended): for every valid buffer encoding records stored sorted
by strictly increasing key, where additionally every key is below 2^31 (so
the subtraction comparator's sign agrees with the unsigned key order),
`Get(ki)` on a table initialized from that buffer returns `(v1_i, v2_i)` for
every index `i`. -/
theorem c1_get_returns_values (es : List keymap_entry) (i : Nat)
    (hwf : wfEntries es) (hlen : es.length < 2147483648)
    (hsorted : List.Pairwise (fun a b => a.key < b.key) es)
    (hk31 : ∀ e ∈ es, e.key < 2147483648)
    (hi : i < es.length) :
    ∃ t, keymap_initialize (encodeTable es) 0 = .ok t ∧
      keymap_get t (.int (es[i].key))
        = .ok (.pair (.int (es[i].value1)) (.int (es[i].value2))) :=
  ⟨⟨recordBytes es, (es.length : Int)⟩, keymap_initialize_encodeTable es hlen,
    internal_get_hit es hwf hlen hk31 hsorted i hi false⟩

/-- Claim C1 (amended), witness: the spec's concrete scenario, records
`(1,10,20)` and `(5,30,40)`, looking up the key of record 1. -/
theorem c1_get_returns_values_witness :
    ∃ t, keymap_initialize (encodeTable [⟨1, 10, 20⟩, ⟨5, 30, 40⟩]) 0 = .ok t ∧
      keymap_get t (.int 5) = .ok (.pair (.int 30) (.int 40)) :=
  c1_get_returns_values [⟨1, 10, 20⟩, ⟨5, 30, 40⟩] 1 (by unfold wfEntries; decide)
    (by decide) (by decide) (by decide) (by decide)

/-- Claim C3: on a table initialized from a valid buffer encoding the record
list, `Length()` equals the number of encoded records, and exhausting an
iterator in any of the five modes (0 = keys, ..., 4 = items without second
value) produces exactly that many items. -/
theorem c3_length_and_iteration_count (es : List keymap_entry)
    (hwf : wfEntries es) (hlen : es.length < 2147483648)
    (mode : Int) (hm0 : 0 ≤ mode) (hm4 : mode ≤ 4)
    (fuel : Nat) (hfuel : es.length ≤ fuel) :
    ∃ t, keymap_initialize (encodeTable es) 0 = .ok t ∧
      keymap_obj_length t = (es.length : Int) ∧
      (iterRun fuel (_iter t mode)).length = es.length := by
  refine ⟨⟨recordBytes es, (es.length : Int)⟩, keymap_initialize_encodeTable es hlen,
    rfl, ?_⟩
  have h := iterRun_length_from es hwf mode hm0 hm4 fuel 0 (by omega) (by omega)
  simpa using h

/-- Claim C3, witness: the spec's two-record table, iterated in items mode. -/
theorem c3_length_and_iteration_count_witness :
    ∃ t, keymap_initialize (encodeTable [⟨1, 10, 20⟩, ⟨5, 30, 40⟩]) 0 = .ok t ∧
      keymap_obj_length t = ((2 : Nat) : Int) ∧
      (iterRun 2 (_iter t 2)).length = 2 :=
  c3_length_and_iteration_count [⟨1, 10, 20⟩, ⟨5, 30, 40⟩] (by unfold wfEntries; decide)
    (by decide) 2 (by norm_num) (by norm_num) 2 (by norm_num)

/-- Claim C4, counterexample: the key 2147483648 = 2^31 is absent from the
one-record table; the strict subscript lookup raises a `KeyError`, but the
value it carries is the signed reinterpretation -2147483648 produced by the
"%d" format, not the key value 2147483648 the claim states. -/
theorem c4_counterexample :
    keymap_initialize (encodeTable [⟨1, 2, 3⟩]) 0 = .ok ⟨recordBytes [⟨1, 2, 3⟩], 1⟩ ∧
    keymap_get ⟨recordBytes [⟨1, 2, 3⟩], 1⟩ (.int 2147483648) = .ok .none ∧
    keymap_mp_subscript ⟨recordBytes [⟨1, 2, 3⟩], 1⟩ (.int 2147483648)
      = .err (.keyError (-2147483648)) ∧
    keymap_mp_subscript ⟨recordBytes [⟨1, 2, 3⟩], 1⟩ (.int 2147483648)
      ≠ .err (.keyError 2147483648) := by
  decide

/-- Claim C4 (amended): for every key absent from a table initialized from a
valid buffer, the soft lookup returns the `None` sentinel (not an error), and
the strict subscript lookup fails with a `KeyError` carrying the key
reinterpreted as a signed 32-bit integer (equal to the key itself whenever
the key is below 2^31). -/
theorem c4_absent_key_lookups (es : List keymap_entry) (k : Nat)
    (hwf : wfEntries es) (hlen : es.length < 2147483648)
    (hk : k < 4294967296) (habsent : k ∉ es.map (fun e => e.key)) :
    ∃ t, keymap_initialize (encodeTable es) 0 = .ok t ∧
      keymap_get t (.int (k : Int)) = .ok .none ∧
      keymap_mp_subscript t (.int (k : Int)) = .err (.keyError (toInt32 k)) := by
  have habs : ∀ e ∈ es, e.key ≠ k := fun e he heq =>
    habsent (heq ▸ List.mem_map_of_mem (fun x => x.key) he)
  refine ⟨⟨recordBytes es, (es.length : Int)⟩, keymap_initialize_encodeTable es hlen,
    ?_, ?_⟩
  · have h := internal_get_miss es hwf hlen k hk habs false
    simpa using h
  · have h := internal_get_miss es hwf hlen k hk habs true
    simpa using h

/-- Claim C4 (amended), witness: the absent key 3 on the spec's two-record
table (3 is below 2^31, so the carried value equals the key). -/
theorem c4_absent_key_lookups_witness :
    ∃ t, keymap_initialize (encodeTable [⟨1, 10, 20⟩, ⟨5, 30, 40⟩]) 0 = .ok t ∧
      keymap_get t (.int ((3 : Nat) : Int)) = .ok .none ∧
      keymap_mp_subscript t (.int ((3 : Nat) : Int)) = .err (.keyError (toInt32 3)) :=
  c4_absent_key_lookups [⟨1, 10, 20⟩, ⟨5, 30, 40⟩] 3 (by unfold wfEntries; decide)
    (by decide) (by norm_num) (by decide)

/-- Claim C5: on a table initialized from a valid buffer, `Next()` with the
cursor at an in-range index reads the record there, advances the index by
exactly one, and returns the projection selected by the mode (0: key;
1: (value1, value2); 2: (key, (value1, value2)); 3: value1; 4: (key,
value1)); with a negative index or one at or past the record count it
signals exhaustion without moving the cursor, so records come in buffer
order. -/
theorem c5_next_semantics (es : List keymap_entry)
    (hwf : wfEntries es) (hlen : es.length < 2147483648)
    (mode i : Int) (j : Nat)
    (hex : i < 0 ∨ (es.length : Int) ≤ i) (hj : j < es.length) :
    ∃ t, keymap_initialize (encodeTable es) 0 = .ok t ∧
      keymapiter_next ⟨t, mode, i⟩ = (.stop, ⟨t, mode, i⟩) ∧
      keymapiter_next ⟨t, 0, (j : Int)⟩
        = (.ok (.int (es[j].key)), ⟨t, 0, (j : Int) + 1⟩) ∧
      keymapiter_next ⟨t, 1, (j : Int)⟩
        = (.ok (.pair (.int (es[j].value1)) (.int (es[j].value2))),
           ⟨t, 1, (j : Int) + 1⟩) ∧
      keymapiter_next ⟨t, 2, (j : Int)⟩
        = (.ok (.pair (.int (es[j].key))
                (.pair (.int (es[j].value1)) (.int (es[j].value2)))),
           ⟨t, 2, (j : Int) + 1⟩) ∧
      keymapiter_next ⟨t, 3, (j : Int)⟩
        = (.ok (.int (es[j].value1)), ⟨t, 3, (j : Int) + 1⟩) ∧
      keymapiter_next ⟨t, 4, (j : Int)⟩
        = (.ok (.pair (.int (es[j].key)) (.int (es[j].value1))),
           ⟨t, 4, (j : Int) + 1⟩) :=
  ⟨⟨recordBytes es, (es.length : Int)⟩, keymap_initialize_encodeTable es hlen,
    keymapiter_next_stop ⟨recordBytes es, (es.length : Int)⟩ mode i hex,
    keymapiter_next_mode0 es hwf j hj, keymapiter_next_mode1 es hwf j hj,
    keymapiter_next_mode2 es hwf j hj, keymapiter_next_mode3 es hwf j hj,
    keymapiter_next_mode4 es hwf j hj⟩

/-- Claim C5, witness: the spec's two-record table, stepping from index 0 and
observing exhaustion at index 2. -/
theorem c5_next_semantics_witness :
    ∃ t, keymap_initialize (encodeTable [⟨1, 10, 20⟩, ⟨5, 30, 40⟩]) 0 = .ok t ∧
      keymapiter_next ⟨t, 7, 2⟩ = (.stop, ⟨t, 7, 2⟩) ∧
      keymapiter_next ⟨t, 0, ((0 : Nat) : Int)⟩
        = (.ok (.int 1), ⟨t, 0, ((0 : Nat) : Int) + 1⟩) ∧
      keymapiter_next ⟨t, 1, ((0 : Nat) : Int)⟩
        = (.ok (.pair (.int 10) (.int 20)), ⟨t, 1, ((0 : Nat) : Int) + 1⟩) ∧
      keymapiter_next ⟨t, 2, ((0 : Nat) : Int)⟩
        = (.ok (.pair (.int 1) (.pair (.int 10) (.int 20))),
           ⟨t, 2, ((0 : Nat) : Int) + 1⟩) ∧
      keymapiter_next ⟨t, 3, ((0 : Nat) : Int)⟩
        = (.ok (.int 10), ⟨t, 3, ((0 : Nat) : Int) + 1⟩) ∧
      keymapiter_next ⟨t, 4, ((0 : Nat) : Int)⟩
        = (.ok (.pair (.int 1) (.int 10)), ⟨t, 4, ((0 : Nat) : Int) + 1⟩) :=
  c5_next_semantics [⟨1, 10, 20⟩, ⟨5, 30, 40⟩] (by unfold wfEntries; decide)
    (by decide) 7 2 0 (by norm_num) (by norm_num)

/-- Claim C6, counterexample: on a one-record table, an iterator built by
`IterSpecial(5)` does not fail at construction and its first `Next()` fails
with the invalid-mode error, but the call advances the cursor (the index is
post-incremented before the mode switch), contradicting the claim's "without
advancing the cursor". -/
theorem c6_counterexample :
    keymap_initialize (encodeTable [⟨1, 2, 3⟩]) 0 = .ok ⟨recordBytes [⟨1, 2, 3⟩], 1⟩ ∧
    (keymapiter_next (keymap_iterspecial ⟨recordBytes [⟨1, 2, 3⟩], 1⟩ 5)).1
      = .err (.runtimeInvalidMode 5) ∧
    (keymapiter_next (keymap_iterspecial ⟨recordBytes [⟨1, 2, 3⟩], 1⟩ 5)).2
      ≠ keymap_iterspecial ⟨recordBytes [⟨1, 2, 3⟩], 1⟩ 5 := by
  decide

/-- Claim C6 (amended): an iterator constructed with an unrecognized mode
(outside 0..4, via `IterSpecial`) does not fail at construction; every
`Next()` call made while the cursor is in range fails with
`InvalidIterationMode` and advances the cursor by one; once the cursor is
negative or has reached the record count, `Next()` signals exhaustion
instead. -/
theorem c6_invalid_mode_next (es : List keymap_entry) (hlen : es.length < 2147483648)
    (mode : Int) (hmode : mode < 0 ∨ 4 < mode) (i : Nat) (hi : i < es.length)
    (i2 : Int) (hex : i2 < 0 ∨ (es.length : Int) ≤ i2) :
    ∃ t, keymap_initialize (encodeTable es) 0 = .ok t ∧
      keymap_iterspecial t mode = ⟨t, mode, 0⟩ ∧
      keymapiter_next ⟨t, mode, (i : Int)⟩
        = (.err (.runtimeInvalidMode mode), ⟨t, mode, (i : Int) + 1⟩) ∧
      keymapiter_next ⟨t, mode, i2⟩ = (.stop, ⟨t, mode, i2⟩) :=
  ⟨⟨recordBytes es, (es.length : Int)⟩, keymap_initialize_encodeTable es hlen, rfl,
    keymapiter_next_invalid ⟨recordBytes es, (es.length : Int)⟩ mode hmode (i : Int)
      (by omega) (by show (i : Int) < ((es.length : Nat) : Int); omega),
    keymapiter_next_stop ⟨recordBytes es, (es.length : Int)⟩ mode i2 hex⟩

/-- Claim C6 (amended), witness: mode 5 on a one-record table, stepping from
index 0 (error, cursor moves to 1) and then observing exhaustion at index 1. -/
theorem c6_invalid_mode_next_witness :
    ∃ t, keymap_initialize (encodeTable [⟨1, 2, 3⟩]) 0 = .ok t ∧
      keymap_iterspecial t 5 = ⟨t, 5, 0⟩ ∧
      keymapiter_next ⟨t, 5, ((0 : Nat) : Int)⟩
        = (.err (.runtimeInvalidMode 5), ⟨t, 5, ((0 : Nat) : Int) + 1⟩) ∧
      keymapiter_next ⟨t, 5, 1⟩ = (.stop, ⟨t, 5, 1⟩) :=
  c6_invalid_mode_next [⟨1, 2, 3⟩] (by decide) 5 (by norm_num) 0 (by norm_num)
    1 (by norm_num)

/-- Claim C7: `ReadUint32` and `ReadInt32` fail with `BufferTooShort` exactly
when the offset violates `0 <= offset <= length - 4` (in particular both fail
at `offset = length - 3`), and succeed on every in-range offset; for a 4-byte
little-endian value placed at a valid offset they return exactly the encoded
unsigned (respectively signed two's-complement) 32-bit integer. -/
theorem c7_read32_contracts (buf : List Nat) (offset : Int) (n : Nat) (z : Int)
    (pre post : List Nat) (hn : n < 4294967296)
    (hz1 : -2147483648 ≤ z) (hz2 : z < 2147483648) :
    (¬(0 ≤ offset ∧ offset ≤ (buf.length : Int) - 4) →
      fsd_uint32_from buf offset = .err .shortReadU32 ∧
      fsd_int32_from buf offset = .err .shortReadI32) ∧
    ((0 ≤ offset ∧ offset ≤ (buf.length : Int) - 4) →
      ∃ v : Nat, v < 4294967296 ∧ fsd_uint32_from buf offset = .ok (.int (v : Int)) ∧
        ∃ w : Int, fsd_int32_from buf offset = .ok (.int w)) ∧
    fsd_uint32_from buf ((buf.length : Int) - 3) = .err .shortReadU32 ∧
    fsd_int32_from buf ((buf.length : Int) - 3) = .err .shortReadI32 ∧
    fsd_uint32_from (pre ++ (encodeU32 n ++ post)) (pre.length : Int)
      = .ok (.int (n : Int)) ∧
    fsd_int32_from (pre ++ (encodeInt32 z ++ post)) (pre.length : Int)
      = .ok (.int z) := by
  refine ⟨?_, ?_, ?_, ?_, ?_, ?_⟩
  · intro h
    constructor
    · unfold fsd_uint32_from
      rw [if_neg h]
    · unfold fsd_int32_from
      rw [if_neg h]
  · intro h
    unfold fsd_uint32_from fsd_int32_from readInt32 readUInt32
    rw [readU8_in_bounds _ _ (by omega) (by omega), readU8_in_bounds _ _ (by omega) (by omega),
      readU8_in_bounds _ _ (by omega) (by omega), readU8_in_bounds _ _ (by omega) (by omega),
      if_pos h, if_pos h]
    exact ⟨_, by omega, rfl, _, rfl⟩
  · unfold fsd_uint32_from
    rw [if_neg (by omega)]
  · unfold fsd_int32_from
    rw [if_neg (by omega)]
  · unfold fsd_uint32_from
    have hc : (0 : Int) ≤ (pre.length : Int) ∧
        (pre.length : Int) ≤ ((pre ++ (encodeU32 n ++ post)).length : Int) - 4 := by
      simp only [List.length_append, length_encodeU32]
      omega
    rw [if_pos hc, show ((pre.length : Nat) : Int) = ((pre.length : Int) + 0) by ring,
      readUInt32_append_right _ _ 0 le_rfl, readUInt32_encodeU32, Nat.mod_eq_of_lt hn]
  · unfold fsd_int32_from readInt32
    have hc : (0 : Int) ≤ (pre.length : Int) ∧
        (pre.length : Int) ≤ ((pre ++ (encodeInt32 z ++ post)).length : Int) - 4 := by
      simp only [List.length_append, encodeInt32, length_encodeU32]
      omega
    rw [if_pos hc, show ((pre.length : Nat) : Int) = ((pre.length : Int) + 0) by ring,
      readUInt32_append_right _ _ 0 le_rfl]
    unfold encodeInt32
    rw [readUInt32_encodeU32]
    simp only [Option.map_some', toInt32_emod z hz1 hz2]

/-- Claim C7, witness: a 5-byte zero buffer at the bad offset -1 and at
`length - 3 = 2`; the value 7 encoded after a 1-byte prologue and the value
-2 likewise. -/
theorem c7_read32_contracts_witness :
    (¬((0 : Int) ≤ -1 ∧ (-1 : Int) ≤ (([0, 0, 0, 0, 0] : List Nat).length : Int) - 4) →
      fsd_uint32_from [0, 0, 0, 0, 0] (-1) = .err .shortReadU32 ∧
      fsd_int32_from [0, 0, 0, 0, 0] (-1) = .err .shortReadI32) ∧
    (((0 : Int) ≤ -1 ∧ (-1 : Int) ≤ (([0, 0, 0, 0, 0] : List Nat).length : Int) - 4) →
      ∃ v : Nat, v < 4294967296 ∧
        fsd_uint32_from [0, 0, 0, 0, 0] (-1) = .ok (.int (v : Int)) ∧
        ∃ w : Int, fsd_int32_from [0, 0, 0, 0, 0] (-1) = .ok (.int w)) ∧
    fsd_uint32_from [0, 0, 0, 0, 0] ((([0, 0, 0, 0, 0] : List Nat).length : Int) - 3)
      = .err .shortReadU32 ∧
    fsd_int32_from [0, 0, 0, 0, 0] ((([0, 0, 0, 0, 0] : List Nat).length : Int) - 3)
      = .err .shortReadI32 ∧
    fsd_uint32_from ([9] ++ (encodeU32 7 ++ [8])) ((([9] : List Nat).length : Nat) : Int)
      = .ok (.int ((7 : Nat) : Int)) ∧
    fsd_int32_from ([9] ++ (encodeInt32 (-2) ++ [8])) ((([9] : List Nat).length : Nat) : Int)
      = .ok (.int (-2)) :=
  c7_read32_contracts [0, 0, 0, 0, 0] (-1) 7 (-2) [9] [8] (by norm_num)
    (by norm_num) (by norm_num)

/-- Claim C10, counterexample: in the table encoding the sorted records
`(0,10,20), (1,30,40), (2147483649,50,60)`, the key 2147483649 is present,
yet the two lookups do not return its `(value1, value2)` pair: the wrapped
subtraction comparator makes the shared binary search miss, so the soft
lookup returns `None` and the strict lookup raises `KeyError` with the
signed reinterpretation -2147483647 — both contradict the claim's
present-key conclusion. -/
theorem c10_counterexample :
    keymap_initialize (encodeTable [⟨0, 10, 20⟩, ⟨1, 30, 40⟩, ⟨2147483649, 50, 60⟩]) 0
      = .ok ⟨recordBytes [⟨0, 10, 20⟩, ⟨1, 30, 40⟩, ⟨2147483649, 50, 60⟩], 3⟩ ∧
    (⟨2147483649, 50, 60⟩ : keymap_entry)
      ∈ [(⟨0, 10, 20⟩ : keymap_entry), ⟨1, 30, 40⟩, ⟨2147483649, 50, 60⟩] ∧
    keymap_get ⟨recordBytes [⟨0, 10, 20⟩, ⟨1, 30, 40⟩, ⟨2147483649, 50, 60⟩], 3⟩
      (.int 2147483649) = .ok .none ∧
    keymap_mp_subscript ⟨recordBytes [⟨0, 10, 20⟩, ⟨1, 30, 40⟩, ⟨2147483649, 50, 60⟩], 3⟩
      (.int 2147483649) = .err (.keyError (-2147483647)) ∧
    keymap_get ⟨recordBytes [⟨0, 10, 20⟩, ⟨1, 30, 40⟩, ⟨2147483649, 50, 60⟩], 3⟩
      (.int 2147483649) ≠ .ok (.pair (.int 50) (.int 60)) ∧
    keymap_mp_subscript ⟨recordBytes [⟨0, 10, 20⟩, ⟨1, 30, 40⟩, ⟨2147483649, 50, 60⟩], 3⟩
      (.int 2147483649) ≠ .ok (.pair (.int 50) (.int 60)) := by
  decide

/-- Claim C10 (amended): on every table and every key, the soft lookup and
the strict subscript lookup are the same search parameterized by a raise
flag, so they return identical results except on the search-miss path, where
the soft lookup returns the absent sentinel and the strict lookup fails with
`KeyNotFound`; for every key the search finds — in particular every present
key of a table initialized from a valid buffer whose keys are sorted
strictly increasing and all below 2^31 — both lookups return the identical
`(value1, value2)` pair. -/
theorem c10_soft_strict_agreement (es : List keymap_entry) (i : Nat)
    (hwf : wfEntries es) (hlen : es.length < 2147483648)
    (hsorted : List.Pairwise (fun a b => a.key < b.key) es)
    (hk31 : ∀ e ∈ es, e.key < 2147483648) (hi : i < es.length)
    (t : PyKeyMapObject) (key : PyVal) :
    ((∃ z, keymap_get t key = .ok .none ∧
        keymap_mp_subscript t key = .err (.keyError z)) ∨
      keymap_get t key = keymap_mp_subscript t key) ∧
    keymap_initialize (encodeTable es) 0 = .ok ⟨recordBytes es, (es.length : Int)⟩ ∧
    keymap_get ⟨recordBytes es, (es.length : Int)⟩ (.int (es[i].key))
      = .ok (.pair (.int (es[i].value1)) (.int (es[i].value2))) ∧
    keymap_mp_subscript ⟨recordBytes es, (es.length : Int)⟩ (.int (es[i].key))
      = .ok (.pair (.int (es[i].value1)) (.int (es[i].value2))) :=
  ⟨soft_strict_miss_or_equal t key, keymap_initialize_encodeTable es hlen,
    internal_get_hit es hwf hlen hk31 hsorted i hi false,
    internal_get_hit es hwf hlen hk31 hsorted i hi true⟩

/-- Claim C10 (amended), witness: the spec's two-record table; the absent key
3 exercises the miss disjunct, and the present key of record 0 yields the
identical pair `(10, 20)` from both lookups. -/
theorem c10_soft_strict_agreement_witness :
    ((∃ z, keymap_get ⟨recordBytes [⟨1, 10, 20⟩, ⟨5, 30, 40⟩], ((2 : Nat) : Int)⟩
          (.int 3) = .ok .none ∧
        keymap_mp_subscript ⟨recordBytes [⟨1, 10, 20⟩, ⟨5, 30, 40⟩], ((2 : Nat) : Int)⟩
          (.int 3) = .err (.keyError z)) ∨
      keymap_get ⟨recordBytes [⟨1, 10, 20⟩, ⟨5, 30, 40⟩], ((2 : Nat) : Int)⟩ (.int 3)
        = keymap_mp_subscript ⟨recordBytes [⟨1, 10, 20⟩, ⟨5, 30, 40⟩], ((2 : Nat) : Int)⟩
            (.int 3)) ∧
    keymap_initialize (encodeTable [⟨1, 10, 20⟩, ⟨5, 30, 40⟩]) 0
      = .ok ⟨recordBytes [⟨1, 10, 20⟩, ⟨5, 30, 40⟩], ((2 : Nat) : Int)⟩ ∧
    keymap_get ⟨recordBytes [⟨1, 10, 20⟩, ⟨5, 30, 40⟩], ((2 : Nat) : Int)⟩ (.int 1)
      = .ok (.pair (.int 10) (.int 20)) ∧
    keymap_mp_subscript ⟨recordBytes [⟨1, 10, 20⟩, ⟨5, 30, 40⟩], ((2 : Nat) : Int)⟩
      (.int 1) = .ok (.pair (.int 10) (.int 20)) :=
  c10_soft_strict_agreement [⟨1, 10, 20⟩, ⟨5, 30, 40⟩] 0 (by unfold wfEntries; decide)
    (by decide) (by decide) (by decide) (by decide)
    ⟨recordBytes [⟨1, 10, 20⟩, ⟨5, 30, 40⟩], ((2 : Nat) : Int)⟩ (.int 3)
